import Mathlib

/-!
# Verification of the globenew validation core against its specification

Shallow embedding of the script-verification ABI (`src/script/globeconsensus.h`),
the cuckoo presence set / signature validation cache, the cache budget
allocator (`src/node/caches.h`), and the settings-interpretation helpers of
`src/util/system.cpp`.  Components whose implementation files are not shipped
in the repository snapshot (only their headers/declarations are) are modelled
from the specification; each such definition says so in its doc comment.
-/

/-! ## Script verification flags (from src/script/globeconsensus.h, lines 47-59) -/

def globeconsensus_SCRIPT_FLAGS_VERIFY_NONE : Nat := 0

def globeconsensus_SCRIPT_FLAGS_VERIFY_P2SH : Nat := 1 <<< 0

def globeconsensus_SCRIPT_FLAGS_VERIFY_DERSIG : Nat := 1 <<< 2

def globeconsensus_SCRIPT_FLAGS_VERIFY_NULLDUMMY : Nat := 1 <<< 4

def globeconsensus_SCRIPT_FLAGS_VERIFY_CHECKLOCKTIMEVERIFY : Nat := 1 <<< 9

def globeconsensus_SCRIPT_FLAGS_VERIFY_CHECKSEQUENCEVERIFY : Nat := 1 <<< 10

def globeconsensus_SCRIPT_FLAGS_VERIFY_WITNESS : Nat := 1 <<< 11

def globeconsensus_SCRIPT_FLAGS_VERIFY_ALL : Nat :=
  globeconsensus_SCRIPT_FLAGS_VERIFY_P2SH |||
  globeconsensus_SCRIPT_FLAGS_VERIFY_DERSIG |||
  globeconsensus_SCRIPT_FLAGS_VERIFY_NULLDUMMY |||
  globeconsensus_SCRIPT_FLAGS_VERIFY_CHECKLOCKTIMEVERIFY |||
  globeconsensus_SCRIPT_FLAGS_VERIFY_CHECKSEQUENCEVERIFY |||
  globeconsensus_SCRIPT_FLAGS_VERIFY_WITNESS

/-- The six named script-verification flag bits, in header order. -/
def namedScriptFlags : List Nat :=
  [globeconsensus_SCRIPT_FLAGS_VERIFY_P2SH,
   globeconsensus_SCRIPT_FLAGS_VERIFY_DERSIG,
   globeconsensus_SCRIPT_FLAGS_VERIFY_NULLDUMMY,
   globeconsensus_SCRIPT_FLAGS_VERIFY_CHECKLOCKTIMEVERIFY,
   globeconsensus_SCRIPT_FLAGS_VERIFY_CHECKSEQUENCEVERIFY,
   globeconsensus_SCRIPT_FLAGS_VERIFY_WITNESS]

/-- The fixed API-version constant (`GLOBECONSENSUS_API_VER`, header line 34). -/
def GLOBECONSENSUS_API_VER : Nat := 1

def globeconsensus_version : Nat := GLOBECONSENSUS_API_VER

/-! ## Verification results

`globeconsensus_error` in the header enumerates the five immediate-reject
codes plus OK (header lines 36-44).  The spec's `VerificationError` adds the
engine's internal script-evaluation failure reasons; we carry those as
`scriptFail`/`sigFail` so that every call produces exactly one outcome. -/

inductive VerificationError where
  | ok
  | txIndex
  | txSizeMismatch
  | txDeserialize
  | amountRequired
  | invalidFlags
  | scriptFail (reason : Nat)
  | sigFail (check : Nat)
deriving DecidableEq

/-- Discriminant values of the C enum `globeconsensus_error_t`
(header lines 36-44); the internal script/signature failure reasons are not
part of the C enum. -/
def VerificationError.abiCode : VerificationError → Option Nat
  | .ok => some 0
  | .txIndex => some 1
  | .txSizeMismatch => some 2
  | .txDeserialize => some 3
  | .amountRequired => some 4
  | .invalidFlags => some 5
  | .scriptFail _ => none
  | .sigFail _ => none

/-- The C ABI boolean return: 1 exactly on full success. -/
def abiReturn (e : VerificationError) : Nat :=
  if e = VerificationError.ok then 1 else 0

/-! ## Signature validation cache (modelled from the spec, section 4.2)

The sigcache implementation is not shipped in the repository snapshot, so the
cache, its `have_verified`/`record_verified` contract and the engine's use of
it are modelled from the spec.  A signature check request (the
(pubkey, signature, digest) triple after key derivation) is abstracted to a
`Nat`; the crypto primitive is an arbitrary boolean function on requests. -/

def SigCache : Type := Nat → Bool

/-- The empty cache: nothing has been remembered yet. -/
def emptyCache : SigCache := fun _ => false

/-- `record_verified`: remember one positively verified check. -/
def recordVerified (cache : SigCache) (c : Nat) : SigCache :=
  fun x => if x = c then true else cache x

/-- Modelled from the spec: one signature check inside the engine.  First
consult the cache (`have_verified`); on a hit, skip the crypto primitive and
treat the check as already proven.  On a miss, run the real check and call
`record_verified` exactly when the primitive confirms validity. -/
def stepSigCheck (realCheck : Nat → Bool) (cache : SigCache) (c : Nat) :
    Bool × SigCache :=
  if cache c then (true, cache)
  else if realCheck c then (true, recordVerified cache c)
  else (false, cache)

/-- Run a list of signature checks with the cache disabled: every check goes
straight to the crypto primitive.  Returns the first failing check, if any. -/
def runChecks (realCheck : Nat → Bool) : List Nat → Option Nat
  | [] => none
  | c :: cs => if realCheck c then runChecks realCheck cs else some c

/-- Run a list of signature checks through the cache, threading the cache
state (cache population is the engine's only side effect). -/
def runChecksCaching (realCheck : Nat → Bool) (cache : SigCache) :
    List Nat → Option Nat × SigCache
  | [] => (none, cache)
  | c :: cs =>
      let r := stepSigCheck realCheck cache c
      if r.1 then runChecksCaching realCheck r.2 cs else (some c, r.2)

/-- The cache safety invariant: every remembered check is one the crypto
primitive accepts. -/
def validCache (realCheck : Nat → Bool) (cache : SigCache) : Prop :=
  ∀ x, cache x = true → realCheck x = true

/-! ## Script/transaction verification engine (modelled from the spec, 4.3)

Only the C header of the engine is shipped, so the transaction wire format,
the deserializer and the script interpreter are modelled from the spec as an
abstract environment: a deserializer that may fail, the re-serialized length
of a transaction, the non-signature part of script evaluation (`structOk`,
returning the internal failure reason if the spending condition fails), and
the list of public-key signature checks evaluation performs. -/

structure Tx where
  numInputs : Nat
deriving DecidableEq

structure Env where
  deser : List Nat → Option Tx
  serLen : Tx → Nat
  structOk : List Nat → Option Int → Tx → Nat → Nat → Option Nat
  sigChecks : List Nat → Option Int → Tx → Nat → Nat → List Nat
  realCheck : Nat → Bool

/-- Modelled from the spec: `verify(prev_script, prev_amount?, raw_tx,
input_index, flags)`.  The five immediate-reject checks run before any script
evaluation, in the spec's order 1-5, first match wins; only then is the
script evaluated, with every signature check going through the cache.
Returns the outcome together with the possibly grown cache. -/
def verifyCore (env : Env) (cache : SigCache) (prevScript : List Nat)
    (amt : Option Int) (rawTx : List Nat) (nIn : Nat) (flags : Nat) :
    VerificationError × SigCache :=
  match env.deser rawTx with
  | none => (.txDeserialize, cache)
  | some tx =>
    if env.serLen tx ≠ rawTx.length then (.txSizeMismatch, cache)
    else if tx.numInputs ≤ nIn then (.txIndex, cache)
    else if flags &&& globeconsensus_SCRIPT_FLAGS_VERIFY_ALL ≠ flags then
      (.invalidFlags, cache)
    else if flags &&& globeconsensus_SCRIPT_FLAGS_VERIFY_WITNESS ≠ 0 ∧ amt = none then
      (.amountRequired, cache)
    else
      match env.structOk prevScript amt tx nIn flags with
      | some r => (.scriptFail r, cache)
      | none =>
        match runChecksCaching env.realCheck cache (env.sigChecks prevScript amt tx nIn flags) with
        | (none, cache2) => (.ok, cache2)
        | (some c, cache2) => (.sigFail c, cache2)

/-- The same evaluation with the signature validation cache disabled: every
signature check bypasses `have_verified` and performs the real cryptographic
check. -/
def verifyCoreNoCache (env : Env) (prevScript : List Nat) (amt : Option Int)
    (rawTx : List Nat) (nIn : Nat) (flags : Nat) : VerificationError :=
  match env.deser rawTx with
  | none => .txDeserialize
  | some tx =>
    if env.serLen tx ≠ rawTx.length then .txSizeMismatch
    else if tx.numInputs ≤ nIn then .txIndex
    else if flags &&& globeconsensus_SCRIPT_FLAGS_VERIFY_ALL ≠ flags then
      .invalidFlags
    else if flags &&& globeconsensus_SCRIPT_FLAGS_VERIFY_WITNESS ≠ 0 ∧ amt = none then
      .amountRequired
    else
      match env.structOk prevScript amt tx nIn flags with
      | some r => .scriptFail r
      | none =>
        match runChecks env.realCheck (env.sigChecks prevScript amt tx nIn flags) with
        | none => .ok
        | some c => .sigFail c

/-- The amount-less ABI entry point (header lines 65-67): no amount is
supplied, so precondition 5 fires whenever flags require one.  Returns the
C int (1 on success) paired with the reported error. -/
def globeconsensus_verify_script (env : Env) (cache : SigCache)
    (scriptPubKey txTo : List Nat) (nIn flags : Nat) : Nat × VerificationError :=
  let r := verifyCore env cache scriptPubKey none txTo nIn flags
  (abiReturn r.1, r.1)

/-- The amount-carrying ABI entry point (header lines 69-71). -/
def globeconsensus_verify_script_with_amount (env : Env) (cache : SigCache)
    (scriptPubKey : List Nat) (amount : Int) (txTo : List Nat)
    (nIn flags : Nat) : Nat × VerificationError :=
  let r := verifyCore env cache scriptPubKey (some amount) txTo nIn flags
  (abiReturn r.1, r.1)

/-- Cache states reachable in one run: the empty cache, and anything the
engine itself produces from a reachable state. -/
inductive ReachableCache (env : Env) : SigCache → Prop where
  | empty : ReachableCache env emptyCache
  | step (c : SigCache) (s : List Nat) (a : Option Int) (t : List Nat)
      (n f : Nat) : ReachableCache env c →
      ReachableCache env (verifyCore env c s a t n f).2

/-! ## Cuckoo presence set (modelled from the spec, section 4.1)

The cuckoo-cache implementation is not shipped in the repository snapshot, so
the presence set is modelled from the spec: each key maps to two candidate
slots via independent hash functions; `insert` occupies an empty candidate
slot if one exists and otherwise performs bounded kick relocations, moving an
occupant into one of its own alternate candidate slots; if the depth limit is
exhausted the new key is silently dropped and the set is left unchanged.
Keys and slot indices are `Nat`; the backing array is a total map from slot
index to optional stored key. -/

def Slots : Type := Nat → Option Nat

def emptySlots : Slots := fun _ => none

def updateSlot (s : Slots) (i : Nat) (v : Option Nat) : Slots :=
  fun j => if j = i then v else s j

/-- `contains(key)`: check both candidate slots for an exact match. -/
def cuckooContains (h1 h2 : Nat → Nat) (s : Slots) (k : Nat) : Bool :=
  decide (s (h1 k) = some k) || decide (s (h2 k) = some k)

/-- A key is physically stored somewhere in the backing array. -/
def cuckooStored (s : Slots) (k : Nat) : Prop :=
  ∃ i, s i = some k

/-- Bounded kick relocation: place `k` in one of its candidate slots, evicting
the occupant of the first candidate into one of its own candidates
recursively, up to the fuel limit.  Returns the new slot assignment, or
`none` when the depth limit is exhausted. -/
def tryPlace (h1 h2 : Nat → Nat) : Nat → Slots → Nat → Option Slots
  | 0, _, _ => none
  | fuel + 1, s, k =>
    match s (h1 k) with
    | none => some (updateSlot s (h1 k) (some k))
    | some occ1 =>
      match s (h2 k) with
      | none => some (updateSlot s (h2 k) (some k))
      | some _ => tryPlace h1 h2 fuel (updateSlot s (h1 k) (some k)) occ1

/-- `insert(key)`: advisory insert; on relocation failure the new key is
dropped and the set is unchanged (a no-op, never an error). -/
def cuckooInsert (h1 h2 : Nat → Nat) (depth : Nat) (s : Slots) (k : Nat) : Slots :=
  match tryPlace h1 h2 depth s k with
  | some t => t
  | none => s

/-- A whole sequence of inserts, oldest first, with no intervening resize. -/
def cuckooInsertAll (h1 h2 : Nat → Nat) (depth : Nat) (s : Slots)
    (ks : List Nat) : Slots :=
  ks.foldl (cuckooInsert h1 h2 depth) s

/-! ## Cache budget allocator

`src/node/caches.h` ships the `CacheSizes` record and the declaration of
`CalculateCacheSizes`, but not its body; the allocator policy is modelled
from the spec, section 4.4.  Field widths are `int64_t` in the source; the
values produced here are bounded by the constants and the caller budget, far
from the 64-bit range, so plain `Int` is used. -/

structure CacheSizes where
  block_tree_db : Int
  coins_db : Int
  coins : Int
  tx_index : Int
  filter_index : Int
  compression : Bool
  max_open_files : Int
deriving DecidableEq

/-- One binary mebibyte. -/
def mib : Int := 1048576

/-- Fixed floor for the block-index/metadata store. -/
def blockTreeFloor : Int := 2 * mib

/-- Ceiling for the block-index/metadata store. -/
def blockTreeMax : Int := 16 * mib

/-- Ceiling for the transaction-index cache. -/
def txIndexMax : Int := 1024 * mib

/-- Ceiling for the combined filter-index caches. -/
def filterIndexMax : Int := 1024 * mib

/-- Minimum for the on-disk coins database cache. -/
def coinsDbFloor : Int := 4 * mib

/-- Ceiling for the on-disk coins database cache. -/
def coinsDbMax : Int := 8192 * mib

/-- Minimum for the in-memory coins working set. -/
def coinsFloor : Int := 4 * mib

/-- Ceiling for the in-memory coins working set. -/
def coinsMax : Int := 16384 * mib

/-!
Modelled from the spec: `calculate_cache_sizes(total_budget,
enabled_index_count, compression_enabled, max_open_files)`
(`node::CalculateCacheSizes`, whose body is not in the shipped sources).
Fixed floor for the block-tree store first; then a per-index carve-out for
the transaction index and the `nIndexes` enabled filter indexes; then the
remainder split between the coins database and the in-memory coins working
set under a fixed ratio, clamped to floors and ceilings; `compression` and
`max_open_files` pass through unchanged.  The function is total: every
subtraction is clamped, so it can never fail or underflow.  The computation
is staged into named intermediate values so each clamping step can be
reasoned about separately.
-/

/-- The operator budget, clamped to be non-negative. -/
def cacheT0 (total : Int) : Int := max total 0

def cacheBtree (total : Int) : Int :=
  max blockTreeFloor (min (cacheT0 total / 8) blockTreeMax)

def cacheR1 (total : Int) : Int := max 0 (cacheT0 total - cacheBtree total)

def cacheTxi (total : Int) (txe : Bool) : Int :=
  if txe then min (cacheR1 total / 8) txIndexMax else 0

def cacheR2 (total : Int) (txe : Bool) : Int := cacheR1 total - cacheTxi total txe

def cacheFidx (total : Int) (txe : Bool) (n : Nat) : Int :=
  if n = 0 then 0 else min (cacheR2 total txe / 8) filterIndexMax / (n : Int)

def cacheR3 (total : Int) (txe : Bool) (n : Nat) : Int :=
  cacheR2 total txe - cacheFidx total txe n * (n : Int)

def cacheCdb (total : Int) (txe : Bool) (n : Nat) : Int :=
  max coinsDbFloor (min (cacheR3 total txe n / 2) coinsDbMax)

def cacheR4 (total : Int) (txe : Bool) (n : Nat) : Int :=
  max 0 (cacheR3 total txe n - cacheCdb total txe n)

def cacheCoins (total : Int) (txe : Bool) (n : Nat) : Int :=
  max coinsFloor (min (cacheR4 total txe n) coinsMax)

/-- Modelled from the spec: the cache budget allocator, assembling the staged
values above into the `CacheSizes` record. -/
def calculateCacheSizes (total : Int) (nIndexes : Nat) (txIndexEnabled : Bool)
    (compression : Bool) (maxOpenFiles : Int) : CacheSizes :=
  { block_tree_db := cacheBtree total
    coins_db := cacheCdb total txIndexEnabled nIndexes
    coins := cacheCoins total txIndexEnabled nIndexes
    tx_index := cacheTxi total txIndexEnabled
    filter_index := cacheFidx total txIndexEnabled nIndexes
    compression := compression
    max_open_files := maxOpenFiles }

/-! ## Settings interpretation (from src/util/system.cpp)

`InterpretBool` (lines 177-182), `InterpretKey` (lines 203-218) and
`InterpretValue` (lines 231-252) are embedded over `List Char`.
`LocaleIndependentAtoi<int>` lives in `util/strencodings.h`, which is not in
the shipped sources; it is kept abstract as a parameter `atoi`, which is all
the claims need.  `InterpretValue`'s error description string is dropped:
failure is represented as `none`. -/

/-- `ArgsManager::DISALLOW_NEGATION`: registered-argument flag bit (declared
in `util/system.h`, not shipped; only membership of the bit matters here). -/
def DISALLOW_NEGATION : Nat := 32

/-- `ArgsManager::DISALLOW_ELISION`: registered-argument flag bit. -/
def DISALLOW_ELISION : Nat := 64

/-- `InterpretBool` (system.cpp lines 177-182): the empty string is true;
otherwise the atoi value decides. -/
def InterpretBool (atoi : List Char → Int) (s : List Char) : Bool :=
  if s = [] then true else decide (atoi s ≠ 0)

structure KeyInfo where
  name : List Char
  sectionName : List Char
  negated : Bool
deriving DecidableEq

/-- `key.find('.')` followed by the prefix/suffix split of
`InterpretKey`: `none` when the key holds no dot, otherwise the parts before
and after the first dot. -/
def splitAtFirstDot : List Char → Option (List Char × List Char)
  | [] => none
  | c :: cs =>
    if c = '.' then some ([], cs)
    else
      match splitAtFirstDot cs with
      | none => none
      | some (pre, post) => some (c :: pre, post)

/-- `InterpretKey` (system.cpp lines 203-218): split the section name off at
the first dot, then strip one leading "no" and set `negated`. -/
def InterpretKey (key : List Char) : KeyInfo :=
  let parts := match splitAtFirstDot key with
    | none => (([] : List Char), key)
    | some (sec, rest) => (sec, rest)
  match parts.2 with
  | 'n' :: 'o' :: k => { name := k, sectionName := parts.1, negated := true }
  | k => { name := k, sectionName := parts.1, negated := false }

inductive SettingsValue where
  | bval (b : Bool)
  | sval (s : List Char)
deriving DecidableEq

/-- `InterpretValue` (system.cpp lines 231-252): negated settings become
boolean false; the double negative `-nofoo=0` becomes boolean true; negation
of a `DISALLOW_NEGATION` argument is an error; otherwise the raw string (or
"" when elided) is stored, unless elision is disallowed. -/
def InterpretValue (atoi : List Char → Int) (key : KeyInfo)
    (value : Option (List Char)) (flags : Nat) : Option SettingsValue :=
  if key.negated then
    if flags &&& DISALLOW_NEGATION ≠ 0 then none
    else
      match value with
      | some v => if InterpretBool atoi v = false then some (.bval true)
                  else some (.bval false)
      | none => some (.bval false)
  else
    match value with
    | none => if flags &&& DISALLOW_ELISION ≠ 0 then none
              else some (.sval [])
    | some v => some (.sval v)

/-! ## Concrete test environment

A small concrete instance of the abstract engine environment, used to
exercise the theorems on explicit inputs: the first byte of a "serialized
transaction" is its input count, its re-serialized length is that count,
script evaluation is structurally fine and demands the single signature
check `7`, and the crypto primitive accepts exactly the odd check ids. -/

def envW : Env where
  deser := fun l => match l with | [] => none | n :: _ => some ⟨n⟩
  serLen := fun tx => tx.numInputs
  structOk := fun _ _ _ _ _ => none
  sigChecks := fun _ _ _ _ _ => [7]
  realCheck := fun c => decide (c % 2 = 1)

/-! # Theorems -/

theorem cuckooContains_iff (h1 h2 : Nat → Nat) (s : Slots) (k : Nat) :
    cuckooContains h1 h2 s k = true ↔ s (h1 k) = some k ∨ s (h2 k) = some k := by
  simp [cuckooContains]

theorem validCache_empty (realCheck : Nat → Bool) :
    validCache realCheck emptyCache := by
  intro x hx
  simp [emptyCache] at hx

/-- C5: the six named script-verification flag constants are pairwise-distinct
single-bit values, and `VERIFY_ALL` is exactly their bitwise-or: every bit of
`VERIFY_ALL` below 12 is a bit of one of the named flags, and `VERIFY_ALL`
has no bit at position 12 or above. -/
theorem script_flags_distinct_single_bit_all (b : Nat) :
    namedScriptFlags.Pairwise (fun a b => a ≠ b)
    ∧ (namedScriptFlags.all fun f => (List.range 12).any fun k => f == 2 ^ k) = true
    ∧ globeconsensus_SCRIPT_FLAGS_VERIFY_ALL = namedScriptFlags.foldr (· ||| ·) 0
    ∧ ((List.range 12).all fun i =>
        globeconsensus_SCRIPT_FLAGS_VERIFY_ALL.testBit i ==
          namedScriptFlags.any fun f => f.testBit i) = true
    ∧ (12 ≤ b → globeconsensus_SCRIPT_FLAGS_VERIFY_ALL.testBit b = false) := by
  refine ⟨by decide, by decide, by decide, by decide, fun hb => ?_⟩
  exact Nat.testBit_lt_two_pow
    (lt_of_lt_of_le (by decide) (Nat.pow_le_pow_right (by decide) hb))

theorem script_flags_distinct_single_bit_all_witness :
    (12 ≤ 31) ∧ globeconsensus_SCRIPT_FLAGS_VERIFY_ALL.testBit 31 = false :=
  ⟨by decide, (script_flags_distinct_single_bit_all 31).2.2.2.2 (by decide)⟩

/-- C3: every call produces exactly one outcome: either the C int 1 together
with error `ok`, or the C int 0 together with one specific non-ok error;
the int returned by `globeconsensus_verify_script` (and by the
with-amount form) is 1 if and only if the reported error is `ok`. -/
theorem verify_exactly_one_outcome (env : Env) (cache : SigCache)
    (script txTo : List Nat) (amount : Int) (nIn flags : Nat) :
    (((globeconsensus_verify_script env cache script txTo nIn flags).1 = 1 ↔
       (globeconsensus_verify_script env cache script txTo nIn flags).2 =
         VerificationError.ok)
      ∧ ((globeconsensus_verify_script env cache script txTo nIn flags).1 = 1
           ∧ (globeconsensus_verify_script env cache script txTo nIn flags).2 =
               VerificationError.ok
         ∨ (globeconsensus_verify_script env cache script txTo nIn flags).1 = 0
           ∧ (globeconsensus_verify_script env cache script txTo nIn flags).2 ≠
               VerificationError.ok))
    ∧ (((globeconsensus_verify_script_with_amount env cache script amount txTo nIn flags).1 = 1 ↔
       (globeconsensus_verify_script_with_amount env cache script amount txTo nIn flags).2 =
         VerificationError.ok)
      ∧ ((globeconsensus_verify_script_with_amount env cache script amount txTo nIn flags).1 = 1
           ∧ (globeconsensus_verify_script_with_amount env cache script amount txTo nIn flags).2 =
               VerificationError.ok
         ∨ (globeconsensus_verify_script_with_amount env cache script amount txTo nIn flags).1 = 0
           ∧ (globeconsensus_verify_script_with_amount env cache script amount txTo nIn flags).2 ≠
               VerificationError.ok)) := by
  constructor
  · by_cases h : (verifyCore env cache script none txTo nIn flags).1 =
      VerificationError.ok <;>
      simp [globeconsensus_verify_script, abiReturn, h]
  · by_cases h : (verifyCore env cache script (some amount) txTo nIn flags).1 =
      VerificationError.ok <;>
      simp [globeconsensus_verify_script_with_amount, abiReturn, h]

theorem stepSigCheck_mem (realCheck : Nat → Bool) (cache : SigCache) (c x : Nat)
    (h : (stepSigCheck realCheck cache c).2 x = true) :
    cache x = true ∨ realCheck x = true := by
  unfold stepSigCheck at h
  by_cases hc : cache c = true
  · simp [hc] at h
    exact Or.inl h
  · simp only [hc, if_false, Bool.false_eq_true] at h
    by_cases hr : realCheck c = true
    · simp only [hr, if_true] at h
      unfold recordVerified at h
      by_cases hx : x = c
      · subst hx
        exact Or.inr hr
      · simp [hx] at h
        exact Or.inl h
    · simp only [hr, if_false, Bool.false_eq_true] at h
      exact Or.inl h

theorem stepSigCheck_no_record_on_failure (realCheck : Nat → Bool)
    (cache : SigCache) (c : Nat) (h : realCheck c = false) :
    (stepSigCheck realCheck cache c).2 = cache := by
  unfold stepSigCheck
  by_cases hc : cache c = true <;> simp [hc, h]

theorem stepSigCheck_fst (realCheck : Nat → Bool) (cache : SigCache) (c : Nat)
    (hv : validCache realCheck cache) :
    (stepSigCheck realCheck cache c).1 = realCheck c := by
  unfold stepSigCheck
  by_cases hc : cache c = true
  · simp [hc, hv c hc]
  · by_cases hr : realCheck c = true <;> simp [hc, hr]

theorem stepSigCheck_valid (realCheck : Nat → Bool) (cache : SigCache) (c : Nat)
    (hv : validCache realCheck cache) :
    validCache realCheck (stepSigCheck realCheck cache c).2 := by
  intro x hx
  rcases stepSigCheck_mem realCheck cache c x hx with h | h
  · exact hv x h
  · exact h

theorem runChecksCaching_mem (realCheck : Nat → Bool) :
    ∀ (cs : List Nat) (cache : SigCache) (x : Nat),
      (runChecksCaching realCheck cache cs).2 x = true →
      cache x = true ∨ realCheck x = true := by
  intro cs
  induction cs with
  | nil => intro cache x h; exact Or.inl h
  | cons c cs ih =>
    intro cache x h
    unfold runChecksCaching at h
    by_cases hfst : (stepSigCheck realCheck cache c).1 = true
    · simp only [hfst, if_true] at h
      rcases ih _ x h with h2 | h2
      · exact stepSigCheck_mem realCheck cache c x h2
      · exact Or.inr h2
    · simp only [hfst, if_false, Bool.false_eq_true] at h
      exact stepSigCheck_mem realCheck cache c x h

theorem runChecksCaching_valid (realCheck : Nat → Bool) (cs : List Nat)
    (cache : SigCache) (hv : validCache realCheck cache) :
    validCache realCheck (runChecksCaching realCheck cache cs).2 := by
  intro x hx
  rcases runChecksCaching_mem realCheck cs cache x hx with h | h
  · exact hv x h
  · exact h

theorem runChecksCaching_fst (realCheck : Nat → Bool) :
    ∀ (cs : List Nat) (cache : SigCache), validCache realCheck cache →
      (runChecksCaching realCheck cache cs).1 = runChecks realCheck cs := by
  intro cs
  induction cs with
  | nil => intro cache _; rfl
  | cons c cs ih =>
    intro cache hv
    simp only [runChecksCaching, runChecks]
    rw [stepSigCheck_fst realCheck cache c hv]
    by_cases hr : realCheck c = true
    · simp only [hr, if_true]
      exact ih _ (stepSigCheck_valid realCheck cache c hv)
    · simp only [hr, if_false]
      simp [Bool.not_eq_true] at hr
      simp [hr]

theorem verifyCore_fst_eq_noCache (env : Env) (cache : SigCache)
    (prevScript : List Nat) (amt : Option Int) (rawTx : List Nat)
    (nIn flags : Nat) (hv : validCache env.realCheck cache) :
    (verifyCore env cache prevScript amt rawTx nIn flags).1 =
      verifyCoreNoCache env prevScript amt rawTx nIn flags := by
  unfold verifyCore verifyCoreNoCache
  cases hd : env.deser rawTx with
  | none => rfl
  | some tx =>
    simp only
    by_cases h1 : env.serLen tx ≠ rawTx.length
    · simp [h1]
    · simp only [h1, if_false]
      by_cases h2 : tx.numInputs ≤ nIn
      · simp [h2]
      · simp only [h2, if_false]
        by_cases h3 : flags &&& globeconsensus_SCRIPT_FLAGS_VERIFY_ALL ≠ flags
        · simp [h3]
        · simp only [h3, if_false]
          by_cases h4 : flags &&& globeconsensus_SCRIPT_FLAGS_VERIFY_WITNESS ≠ 0 ∧ amt = none
          · simp [h4]
          · simp only [h4, if_false]
            cases hso : env.structOk prevScript amt tx nIn flags with
            | some r => rfl
            | none =>
              simp only
              have hrun := runChecksCaching_fst env.realCheck
                (env.sigChecks prevScript amt tx nIn flags) cache hv
              rcases hp : runChecksCaching env.realCheck cache
                  (env.sigChecks prevScript amt tx nIn flags) with ⟨o, c2⟩
              rw [hp] at hrun
              cases o with
              | none => simp [← hrun]
              | some c => simp [← hrun]

theorem verifyCore_snd_mem (env : Env) (cache : SigCache)
    (prevScript : List Nat) (amt : Option Int) (rawTx : List Nat)
    (nIn flags : Nat) (x : Nat)
    (h : (verifyCore env cache prevScript amt rawTx nIn flags).2 x = true) :
    cache x = true ∨ env.realCheck x = true := by
  unfold verifyCore at h
  cases hd : env.deser rawTx with
  | none => rw [hd] at h; exact Or.inl h
  | some tx =>
    rw [hd] at h
    dsimp only at h
    by_cases h1 : env.serLen tx ≠ rawTx.length
    · rw [if_pos h1] at h; exact Or.inl h
    · rw [if_neg h1] at h
      by_cases h2 : tx.numInputs ≤ nIn
      · rw [if_pos h2] at h; exact Or.inl h
      · rw [if_neg h2] at h
        by_cases h3 : flags &&& globeconsensus_SCRIPT_FLAGS_VERIFY_ALL ≠ flags
        · rw [if_pos h3] at h; exact Or.inl h
        · rw [if_neg h3] at h
          by_cases h4 : flags &&& globeconsensus_SCRIPT_FLAGS_VERIFY_WITNESS ≠ 0 ∧ amt = none
          · rw [if_pos h4] at h; exact Or.inl h
          · rw [if_neg h4] at h
            cases hso : env.structOk prevScript amt tx nIn flags with
            | some r => rw [hso] at h; exact Or.inl h
            | none =>
              rw [hso] at h
              rcases hp : runChecksCaching env.realCheck cache
                  (env.sigChecks prevScript amt tx nIn flags) with ⟨o, c2⟩
              rw [hp] at h
              have hmem := runChecksCaching_mem env.realCheck
                (env.sigChecks prevScript amt tx nIn flags) cache x
              rw [hp] at hmem
              cases o with
              | none => exact hmem h
              | some c => exact hmem h

theorem reachable_valid (env : Env) (cache : SigCache)
    (h : ReachableCache env cache) : validCache env.realCheck cache := by
  induction h with
  | empty => exact validCache_empty env.realCheck
  | step c s a t n f _ ih =>
    intro x hx
    rcases verifyCore_snd_mem env c s a t n f x hx with h1 | h1
    · exact ih x h1
    · exact h1

/-- C6: verify is deterministic: for a fixed input tuple, two calls return
the same outcome whatever the (reachable) signature-cache states are — in
particular, repeated calls in one run, whose cache grew in between, agree. -/
theorem verify_deterministic (env : Env) (c1 c2 : SigCache)
    (prevScript : List Nat) (amt : Option Int) (rawTx : List Nat)
    (nIn flags : Nat) (h1 : ReachableCache env c1) (h2 : ReachableCache env c2) :
    (verifyCore env c1 prevScript amt rawTx nIn flags).1 =
      (verifyCore env c2 prevScript amt rawTx nIn flags).1 := by
  rw [verifyCore_fst_eq_noCache env c1 prevScript amt rawTx nIn flags
        (reachable_valid env c1 h1),
      verifyCore_fst_eq_noCache env c2 prevScript amt rawTx nIn flags
        (reachable_valid env c2 h2)]

theorem verify_deterministic_witness :
    (verifyCore envW emptyCache [] none [1] 0 0).1 =
      (verifyCore envW (verifyCore envW emptyCache [] none [1] 0 0).2
        [] none [1] 0 0).1 :=
  verify_deterministic envW emptyCache
    (verifyCore envW emptyCache [] none [1] 0 0).2 [] none [1] 0 0
    ReachableCache.empty
    (ReachableCache.step emptyCache [] none [1] 0 0 ReachableCache.empty)

/-- C7: cache transparency: evaluating with the signature validation cache
disabled (every check bypasses `have_verified` and performs the real
cryptographic check) yields the same outcome as evaluating with any valid
cache state. -/
theorem verify_cache_transparent (env : Env) (cache : SigCache)
    (prevScript : List Nat) (amt : Option Int) (rawTx : List Nat)
    (nIn flags : Nat) (hv : validCache env.realCheck cache) :
    (verifyCore env cache prevScript amt rawTx nIn flags).1 =
      verifyCoreNoCache env prevScript amt rawTx nIn flags :=
  verifyCore_fst_eq_noCache env cache prevScript amt rawTx nIn flags hv

theorem verify_cache_transparent_witness :
    (verifyCore envW (fun x => decide (x = 7)) [] none [1] 0 0).1 =
      verifyCoreNoCache envW [] none [1] 0 0 :=
  verify_cache_transparent envW (fun x => decide (x = 7)) [] none [1] 0 0
    (by
      intro x hx
      have hx7 : x = 7 := of_decide_eq_true hx
      subst hx7
      decide)

/-- C8: never record on failure: the cache is extended only when the crypto
primitive has just confirmed that exact check as valid.  Concretely: a failed
real check leaves the cache untouched; any check remembered after one engine
signature-check step, or after a whole `verify` call, was already remembered
before or is accepted by the crypto primitive. -/
theorem record_verified_only_after_success (realCheck : Nat → Bool)
    (cache : SigCache) (c x : Nat) :
    (realCheck c = false → (stepSigCheck realCheck cache c).2 = cache)
    ∧ ((stepSigCheck realCheck cache c).2 x = true →
        cache x = true ∨ realCheck x = true)
    ∧ (∀ (env : Env) (cache2 : SigCache) (prevScript : List Nat)
        (amt : Option Int) (rawTx : List Nat) (nIn flags : Nat),
        (verifyCore env cache2 prevScript amt rawTx nIn flags).2 x = true →
          cache2 x = true ∨ env.realCheck x = true) :=
  ⟨stepSigCheck_no_record_on_failure realCheck cache c,
   stepSigCheck_mem realCheck cache c x,
   fun env cache2 prevScript amt rawTx nIn flags h =>
     verifyCore_snd_mem env cache2 prevScript amt rawTx nIn flags x h⟩

theorem record_verified_only_after_success_witness :
    (stepSigCheck (fun c => decide (c % 2 = 1)) emptyCache 3).2 3 = true
    ∧ (emptyCache 3 = true ∨ (fun c => decide (c % 2 = 1)) 3 = true) :=
  ⟨by decide,
   (record_verified_only_after_success (fun c => decide (c % 2 = 1))
     emptyCache 3 3).2.1 (by decide)⟩

/-- C1: the five immediate-reject checks run before any script evaluation in
the fixed order TX_DESERIALIZE, TX_SIZE_MISMATCH, TX_INDEX, INVALID_FLAGS,
AMOUNT_REQUIRED; the first failing check determines the error — in
particular a raw transaction that fails to deserialize yields
`txDeserialize` whatever the flags and input index are — and when all five
pass, the outcome comes from script evaluation only. -/
theorem verify_precondition_order (env : Env) (cache : SigCache)
    (prevScript : List Nat) (amt : Option Int) (rawTx : List Nat)
    (nIn flags : Nat) :
    (env.deser rawTx = none →
      (verifyCore env cache prevScript amt rawTx nIn flags).1 =
        VerificationError.txDeserialize)
    ∧ (∀ tx, env.deser rawTx = some tx → env.serLen tx ≠ rawTx.length →
        (verifyCore env cache prevScript amt rawTx nIn flags).1 =
          VerificationError.txSizeMismatch)
    ∧ (∀ tx, env.deser rawTx = some tx → env.serLen tx = rawTx.length →
        tx.numInputs ≤ nIn →
        (verifyCore env cache prevScript amt rawTx nIn flags).1 =
          VerificationError.txIndex)
    ∧ (∀ tx, env.deser rawTx = some tx → env.serLen tx = rawTx.length →
        nIn < tx.numInputs →
        flags &&& globeconsensus_SCRIPT_FLAGS_VERIFY_ALL ≠ flags →
        (verifyCore env cache prevScript amt rawTx nIn flags).1 =
          VerificationError.invalidFlags)
    ∧ (∀ tx, env.deser rawTx = some tx → env.serLen tx = rawTx.length →
        nIn < tx.numInputs →
        flags &&& globeconsensus_SCRIPT_FLAGS_VERIFY_ALL = flags →
        flags &&& globeconsensus_SCRIPT_FLAGS_VERIFY_WITNESS ≠ 0 →
        amt = none →
        (verifyCore env cache prevScript amt rawTx nIn flags).1 =
          VerificationError.amountRequired)
    ∧ (∀ tx, env.deser rawTx = some tx → env.serLen tx = rawTx.length →
        nIn < tx.numInputs →
        flags &&& globeconsensus_SCRIPT_FLAGS_VERIFY_ALL = flags →
        (flags &&& globeconsensus_SCRIPT_FLAGS_VERIFY_WITNESS = 0 ∨ amt ≠ none) →
        ((verifyCore env cache prevScript amt rawTx nIn flags).1 =
            VerificationError.ok
          ∨ (∃ r, (verifyCore env cache prevScript amt rawTx nIn flags).1 =
              VerificationError.scriptFail r)
          ∨ (∃ c, (verifyCore env cache prevScript amt rawTx nIn flags).1 =
              VerificationError.sigFail c))) := by
  refine ⟨?_, ?_, ?_, ?_, ?_, ?_⟩
  · intro hd
    unfold verifyCore
    rw [hd]
  · intro tx hd hlen
    unfold verifyCore
    rw [hd]
    dsimp only
    rw [if_pos hlen]
  · intro tx hd hlen hidx
    unfold verifyCore
    rw [hd]
    dsimp only
    rw [if_neg (by simp [hlen]), if_pos hidx]
  · intro tx hd hlen hidx hfl
    unfold verifyCore
    rw [hd]
    dsimp only
    rw [if_neg (by simp [hlen]), if_neg (Nat.not_le.mpr hidx), if_pos hfl]
  · intro tx hd hlen hidx hfl hw ha
    unfold verifyCore
    rw [hd]
    dsimp only
    rw [if_neg (by simp [hlen]), if_neg (Nat.not_le.mpr hidx),
        if_neg (by simp [hfl]), if_pos ⟨hw, ha⟩]
  · intro tx hd hlen hidx hfl hwa
    unfold verifyCore
    rw [hd]
    dsimp only
    rw [if_neg (by simp [hlen]), if_neg (Nat.not_le.mpr hidx),
        if_neg (by simp [hfl]),
        if_neg (by
          rintro ⟨hw, ha⟩
          rcases hwa with h | h
          · exact hw h
          · exact h ha)]
    cases hso : env.structOk prevScript amt tx nIn flags with
    | some r =>
      refine Or.inr (Or.inl ⟨r, ?_⟩)
      rfl
    | none =>
      dsimp only
      rcases hp : runChecksCaching env.realCheck cache
          (env.sigChecks prevScript amt tx nIn flags) with ⟨o, c2⟩
      cases o with
      | none => exact Or.inl rfl
      | some c => exact Or.inr (Or.inr ⟨c, rfl⟩)

theorem verify_precondition_order_witness :
    envW.deser [] = none
    ∧ (verifyCore envW emptyCache [] none [] 5 (2 ^ 31)).1 =
        VerificationError.txDeserialize :=
  ⟨rfl, (verify_precondition_order envW emptyCache [] none [] 5 (2 ^ 31)).1 rfl⟩

/-- C2: a call whose transaction deserializes, matches its declared length
and has a valid input index, but whose flags contain at least one bit
outside the six named flag bits, returns the C boolean 0 with error
`invalidFlags`. -/
theorem verify_unknown_flag_bits (env : Env) (cache : SigCache)
    (prevScript : List Nat) (amt : Option Int) (rawTx : List Nat)
    (nIn flags : Nat) (tx : Tx)
    (hd : env.deser rawTx = some tx) (hlen : env.serLen tx = rawTx.length)
    (hidx : nIn < tx.numInputs)
    (hb : ∃ b, flags.testBit b = true ∧
      globeconsensus_SCRIPT_FLAGS_VERIFY_ALL.testBit b = false) :
    (verifyCore env cache prevScript amt rawTx nIn flags).1 =
      VerificationError.invalidFlags
    ∧ abiReturn (verifyCore env cache prevScript amt rawTx nIn flags).1 = 0 := by
  have hfl : flags &&& globeconsensus_SCRIPT_FLAGS_VERIFY_ALL ≠ flags := by
    intro heq
    obtain ⟨b, hbf, hba⟩ := hb
    have ht := congrArg (fun n => Nat.testBit n b) heq
    simp only [Nat.testBit_and, hbf, hba, Bool.and_false] at ht
    exact absurd ht (by decide)
  have h : (verifyCore env cache prevScript amt rawTx nIn flags).1 =
      VerificationError.invalidFlags := by
    unfold verifyCore
    rw [hd]
    dsimp only
    rw [if_neg (by simp [hlen]), if_neg (Nat.not_le.mpr hidx), if_pos hfl]
  refine ⟨h, ?_⟩
  rw [h]
  rfl

theorem verify_unknown_flag_bits_witness :
    envW.deser [1] = some ⟨1⟩
    ∧ (verifyCore envW emptyCache [] none [1] 0 2).1 =
        VerificationError.invalidFlags
    ∧ abiReturn (verifyCore envW emptyCache [] none [1] 0 2).1 = 0 :=
  ⟨rfl,
   (verify_unknown_flag_bits envW emptyCache [] none [1] 0 2 ⟨1⟩ rfl rfl
     (by decide) ⟨1, by decide, by decide⟩).1,
   (verify_unknown_flag_bits envW emptyCache [] none [1] 0 2 ⟨1⟩ rfl rfl
     (by decide) ⟨1, by decide, by decide⟩).2⟩

theorem tryPlace_spec (h1 h2 : Nat → Nat) :
    ∀ (fuel : Nat) (s : Slots) (k : Nat) (t : Slots),
      tryPlace h1 h2 fuel s k = some t →
      (∀ m, cuckooContains h1 h2 s m = true → cuckooContains h1 h2 t m = true)
      ∧ cuckooContains h1 h2 t k = true
      ∧ (∀ m, cuckooStored t m → cuckooStored s m ∨ m = k) := by
  intro fuel
  induction fuel with
  | zero =>
    intro s k t h
    exact absurd h (by simp [tryPlace])
  | succ n ih =>
    intro s k t h
    unfold tryPlace at h
    cases ho1 : s (h1 k) with
    | none =>
      rw [ho1] at h
      dsimp only at h
      injection h with h
      subst h
      refine ⟨?_, ?_, ?_⟩
      · intro m hm
        rw [cuckooContains_iff] at hm ⊢
        rcases hm with hm | hm
        · left
          unfold updateSlot
          have : h1 m ≠ h1 k := fun he => by rw [he, ho1] at hm; exact Option.noConfusion hm
          rw [if_neg this]
          exact hm
        · right
          unfold updateSlot
          have : h2 m ≠ h1 k := fun he => by rw [he, ho1] at hm; exact Option.noConfusion hm
          rw [if_neg this]
          exact hm
      · rw [cuckooContains_iff]
        left
        unfold updateSlot
        rw [if_pos rfl]
      · intro m hm
        obtain ⟨i, hi⟩ := hm
        unfold updateSlot at hi
        by_cases hik : i = h1 k
        · rw [if_pos hik] at hi
          injection hi with hi
          exact Or.inr hi.symm
        · rw [if_neg hik] at hi
          exact Or.inl ⟨i, hi⟩
    | some occ1 =>
      rw [ho1] at h
      dsimp only at h
      cases ho2 : s (h2 k) with
      | none =>
        rw [ho2] at h
        dsimp only at h
        injection h with h
        subst h
        refine ⟨?_, ?_, ?_⟩
        · intro m hm
          rw [cuckooContains_iff] at hm ⊢
          rcases hm with hm | hm
          · left
            unfold updateSlot
            have : h1 m ≠ h2 k := fun he => by rw [he, ho2] at hm; exact Option.noConfusion hm
            rw [if_neg this]
            exact hm
          · right
            unfold updateSlot
            have : h2 m ≠ h2 k := fun he => by rw [he, ho2] at hm; exact Option.noConfusion hm
            rw [if_neg this]
            exact hm
        · rw [cuckooContains_iff]
          right
          unfold updateSlot
          rw [if_pos rfl]
        · intro m hm
          obtain ⟨i, hi⟩ := hm
          unfold updateSlot at hi
          by_cases hik : i = h2 k
          · rw [if_pos hik] at hi
            injection hi with hi
            exact Or.inr hi.symm
          · rw [if_neg hik] at hi
            exact Or.inl ⟨i, hi⟩
      | some occ2 =>
        rw [ho2] at h
        dsimp only at h
        obtain ⟨ihPres, ihSelf, ihSound⟩ := ih (updateSlot s (h1 k) (some k)) occ1 t h
        have hs1k : updateSlot s (h1 k) (some k) (h1 k) = some k := by
          unfold updateSlot
          rw [if_pos rfl]
        refine ⟨?_, ?_, ?_⟩
        · intro m hm
          rw [cuckooContains_iff] at hm
          rcases hm with hm | hm
          · by_cases he : h1 m = h1 k
            · rw [he, ho1] at hm
              injection hm with hm
              rw [hm] at ihSelf
              exact ihSelf
            · apply ihPres
              rw [cuckooContains_iff]
              left
              unfold updateSlot
              rw [if_neg he]
              exact hm
          · by_cases he : h2 m = h1 k
            · rw [he, ho1] at hm
              injection hm with hm
              rw [hm] at ihSelf
              exact ihSelf
            · apply ihPres
              rw [cuckooContains_iff]
              right
              unfold updateSlot
              rw [if_neg he]
              exact hm
        · apply ihPres
          rw [cuckooContains_iff]
          left
          exact hs1k
        · intro m hm
          rcases ihSound m hm with hm1 | hm1
          · obtain ⟨i, hi⟩ := hm1
            unfold updateSlot at hi
            by_cases hik : i = h1 k
            · rw [if_pos hik] at hi
              injection hi with hi
              exact Or.inr hi.symm
            · rw [if_neg hik] at hi
              exact Or.inl ⟨i, hi⟩
          · subst hm1
            exact Or.inl ⟨h1 k, ho1⟩

theorem cuckooInsert_preserve (h1 h2 : Nat → Nat) (depth : Nat) (s : Slots)
    (k m : Nat) (hm : cuckooContains h1 h2 s m = true) :
    cuckooContains h1 h2 (cuckooInsert h1 h2 depth s k) m = true := by
  unfold cuckooInsert
  cases htp : tryPlace h1 h2 depth s k with
  | none => exact hm
  | some t => exact (tryPlace_spec h1 h2 depth s k t htp).1 m hm

theorem cuckooInsert_noop_or_contains (h1 h2 : Nat → Nat) (depth : Nat)
    (s : Slots) (k : Nat) :
    cuckooInsert h1 h2 depth s k = s
    ∨ cuckooContains h1 h2 (cuckooInsert h1 h2 depth s k) k = true := by
  unfold cuckooInsert
  cases htp : tryPlace h1 h2 depth s k with
  | none => exact Or.inl rfl
  | some t => exact Or.inr (tryPlace_spec h1 h2 depth s k t htp).2.1

theorem cuckooInsert_sound (h1 h2 : Nat → Nat) (depth : Nat) (s : Slots)
    (k m : Nat) (hm : cuckooStored (cuckooInsert h1 h2 depth s k) m) :
    cuckooStored s m ∨ m = k := by
  unfold cuckooInsert at hm
  cases htp : tryPlace h1 h2 depth s k with
  | none => rw [htp] at hm; exact Or.inl hm
  | some t =>
    rw [htp] at hm
    exact (tryPlace_spec h1 h2 depth s k t htp).2.2 m hm

theorem cuckooInsertAll_sound (h1 h2 : Nat → Nat) (depth : Nat) :
    ∀ (ks : List Nat) (s : Slots) (m : Nat),
      cuckooStored (cuckooInsertAll h1 h2 depth s ks) m →
      cuckooStored s m ∨ m ∈ ks := by
  intro ks
  induction ks with
  | nil => intro s m hm; exact Or.inl hm
  | cons k ks ih =>
    intro s m hm
    rcases ih (cuckooInsert h1 h2 depth s k) m hm with hm1 | hm1
    · rcases cuckooInsert_sound h1 h2 depth s k m hm1 with hm2 | hm2
      · exact Or.inl hm2
      · exact Or.inr (by rw [hm2]; exact List.mem_cons_self k ks)
    · exact Or.inr (List.mem_cons_of_mem k hm1)

theorem cuckooInsertAll_preserve (h1 h2 : Nat → Nat) (depth : Nat) :
    ∀ (ks : List Nat) (s : Slots) (m : Nat),
      cuckooContains h1 h2 s m = true →
      cuckooContains h1 h2 (cuckooInsertAll h1 h2 depth s ks) m = true := by
  intro ks
  induction ks with
  | nil => intro s m hm; exact hm
  | cons k ks ih =>
    intro s m hm
    exact ih (cuckooInsert h1 h2 depth s k) m
      (cuckooInsert_preserve h1 h2 depth s k m hm)

theorem cuckooContains_stored (h1 h2 : Nat → Nat) (s : Slots) (m : Nat)
    (hm : cuckooContains h1 h2 s m = true) : cuckooStored s m := by
  rw [cuckooContains_iff] at hm
  rcases hm with hm | hm
  · exact ⟨h1 m, hm⟩
  · exact ⟨h2 m, hm⟩

/-- C4: presence-set soundness and failure semantics: after any sequence of
inserts into the empty set (no intervening resize), `contains` never holds
for a key that was never inserted; `insert` never fails — when its
kick-relocation depth is exhausted it degrades to a no-op, leaving the set
unchanged, and otherwise the new key is present; and a key already present
is never evicted by a later insert. -/
theorem cuckoo_presence_set_sound (h1 h2 : Nat → Nat) (depth : Nat)
    (ks : List Nat) :
    (∀ m, cuckooContains h1 h2 (cuckooInsertAll h1 h2 depth emptySlots ks) m = true →
       m ∈ ks)
    ∧ (∀ s k, cuckooInsert h1 h2 depth s k = s
         ∨ cuckooContains h1 h2 (cuckooInsert h1 h2 depth s k) k = true)
    ∧ (∀ s k m, cuckooContains h1 h2 s m = true →
         cuckooContains h1 h2 (cuckooInsert h1 h2 depth s k) m = true) := by
  refine ⟨?_, ?_, ?_⟩
  · intro m hm
    rcases cuckooInsertAll_sound h1 h2 depth ks emptySlots m
        (cuckooContains_stored h1 h2 _ m hm) with hm1 | hm1
    · obtain ⟨i, hi⟩ := hm1
      exact absurd hi (by simp [emptySlots])
    · exact hm1
  · intro s k
    exact cuckooInsert_noop_or_contains h1 h2 depth s k
  · intro s k m hm
    exact cuckooInsert_preserve h1 h2 depth s k m hm

theorem cuckoo_presence_set_sound_witness :
    cuckooContains (fun k => k % 3) (fun k => 3 + k % 3)
      (cuckooInsertAll (fun k => k % 3) (fun k => 3 + k % 3) 2 emptySlots [5]) 5 = true
    ∧ (5 : Nat) ∈ [5] :=
  ⟨by decide,
   (cuckoo_presence_set_sound (fun k => k % 3) (fun k => 3 + k % 3) 2 [5]).1 5
     (by decide)⟩

theorem cacheT0_nonneg (total : Int) : 0 ≤ cacheT0 total :=
  le_max_right total 0

theorem cacheBtree_lb (total : Int) : blockTreeFloor ≤ cacheBtree total :=
  le_max_left _ _

theorem cacheBtree_ub (total : Int) : cacheBtree total ≤ blockTreeMax :=
  max_le (by decide) (min_le_right _ _)

theorem cacheR1_nonneg (total : Int) : 0 ≤ cacheR1 total :=
  le_max_left 0 _

theorem cacheBtree_add_r1 (total : Int) :
    cacheBtree total + cacheR1 total ≤ cacheT0 total + blockTreeFloor := by
  have hb : cacheBtree total ≤ cacheT0 total + blockTreeFloor := by
    apply max_le
    · exact le_add_of_nonneg_left (cacheT0_nonneg total)
    · exact le_trans (min_le_left _ _)
        (le_trans (Int.ediv_le_self 8 (cacheT0_nonneg total))
          (le_add_of_nonneg_right (by decide)))
  have hf : (0 : Int) ≤ blockTreeFloor := by decide
  rcases le_total (cacheT0 total - cacheBtree total) 0 with hc | hc
  · unfold cacheR1
    rw [max_eq_left hc]
    linarith
  · unfold cacheR1
    rw [max_eq_right hc]
    linarith

theorem cacheTxi_nonneg (total : Int) (txe : Bool) : 0 ≤ cacheTxi total txe := by
  cases txe with
  | false => simp [cacheTxi]
  | true =>
    simp only [cacheTxi, if_true]
    exact le_min (Int.ediv_nonneg (cacheR1_nonneg total) (by decide)) (by decide)

theorem cacheTxi_ub (total : Int) (txe : Bool) : cacheTxi total txe ≤ txIndexMax := by
  cases txe with
  | false => simp [cacheTxi]; decide
  | true =>
    simp only [cacheTxi, if_true]
    exact min_le_right _ _

theorem cacheTxi_le_r1 (total : Int) (txe : Bool) :
    cacheTxi total txe ≤ cacheR1 total := by
  cases txe with
  | false => simp [cacheTxi]; exact cacheR1_nonneg total
  | true =>
    simp only [cacheTxi, if_true]
    exact le_trans (min_le_left _ _) (Int.ediv_le_self 8 (cacheR1_nonneg total))

theorem cacheR2_nonneg (total : Int) (txe : Bool) : 0 ≤ cacheR2 total txe := by
  have := cacheTxi_le_r1 total txe
  unfold cacheR2
  linarith

theorem cacheFidx_nonneg (total : Int) (txe : Bool) (n : Nat) :
    0 ≤ cacheFidx total txe n := by
  unfold cacheFidx
  by_cases hn : n = 0
  · rw [if_pos hn]
  · rw [if_neg hn]
    exact Int.ediv_nonneg
      (le_min (Int.ediv_nonneg (cacheR2_nonneg total txe) (by decide)) (by decide))
      (Int.natCast_nonneg n)

theorem cacheFidx_ub (total : Int) (txe : Bool) (n : Nat) :
    cacheFidx total txe n ≤ filterIndexMax := by
  unfold cacheFidx
  by_cases hn : n = 0
  · rw [if_pos hn]; decide
  · rw [if_neg hn]
    refine le_trans (Int.ediv_le_self (n : Int) ?_) (min_le_right _ _)
    exact le_min (Int.ediv_nonneg (cacheR2_nonneg total txe) (by decide)) (by decide)

theorem cacheFidx_mul_le_r2 (total : Int) (txe : Bool) (n : Nat) :
    cacheFidx total txe n * (n : Int) ≤ cacheR2 total txe := by
  unfold cacheFidx
  by_cases hn : n = 0
  · rw [if_pos hn]
    simpa using cacheR2_nonneg total txe
  · rw [if_neg hn]
    have h1 : min (cacheR2 total txe / 8) filterIndexMax / (n : Int) * (n : Int) ≤
        min (cacheR2 total txe / 8) filterIndexMax :=
      Int.ediv_mul_le _ (by exact_mod_cast hn)
    exact le_trans h1 (le_trans (min_le_left _ _)
      (Int.ediv_le_self 8 (cacheR2_nonneg total txe)))

theorem cacheR3_nonneg (total : Int) (txe : Bool) (n : Nat) :
    0 ≤ cacheR3 total txe n := by
  have := cacheFidx_mul_le_r2 total txe n
  unfold cacheR3
  linarith

theorem cacheFidx_add_r3_le_r2 (total : Int) (txe : Bool) (n : Nat) :
    cacheFidx total txe n + cacheR3 total txe n ≤ cacheR2 total txe := by
  have hself : cacheFidx total txe n ≤ cacheFidx total txe n * (n : Int) := by
    by_cases hn : n = 0
    · subst hn
      simp [cacheFidx]
    · have hn1 : (1 : Int) ≤ (n : Int) := by
        exact_mod_cast Nat.one_le_iff_ne_zero.mpr hn
      exact le_mul_of_one_le_right (cacheFidx_nonneg total txe n) hn1
  unfold cacheR3
  linarith

theorem cacheCdb_lb (total : Int) (txe : Bool) (n : Nat) :
    coinsDbFloor ≤ cacheCdb total txe n :=
  le_max_left _ _

theorem cacheCdb_ub (total : Int) (txe : Bool) (n : Nat) :
    cacheCdb total txe n ≤ coinsDbMax :=
  max_le (by decide) (min_le_right _ _)

theorem cacheCdb_add_r4 (total : Int) (txe : Bool) (n : Nat) :
    cacheCdb total txe n + cacheR4 total txe n ≤
      cacheR3 total txe n + coinsDbFloor := by
  have hb : cacheCdb total txe n ≤ cacheR3 total txe n + coinsDbFloor := by
    apply max_le
    · exact le_add_of_nonneg_left (cacheR3_nonneg total txe n)
    · exact le_trans (min_le_left _ _)
        (le_trans (Int.ediv_le_self 2 (cacheR3_nonneg total txe n))
          (le_add_of_nonneg_right (by decide)))
  have hf : (0 : Int) ≤ coinsDbFloor := by decide
  rcases le_total (cacheR3 total txe n - cacheCdb total txe n) 0 with hc | hc
  · unfold cacheR4
    rw [max_eq_left hc]
    linarith
  · unfold cacheR4
    rw [max_eq_right hc]
    linarith

theorem cacheR4_nonneg (total : Int) (txe : Bool) (n : Nat) :
    0 ≤ cacheR4 total txe n :=
  le_max_left 0 _

theorem cacheCoins_lb (total : Int) (txe : Bool) (n : Nat) :
    coinsFloor ≤ cacheCoins total txe n :=
  le_max_left _ _

theorem cacheCoins_ub (total : Int) (txe : Bool) (n : Nat) :
    cacheCoins total txe n ≤ coinsMax :=
  max_le (by decide) (min_le_right _ _)

theorem cacheCoins_le_r4_add (total : Int) (txe : Bool) (n : Nat) :
    cacheCoins total txe n ≤ cacheR4 total txe n + coinsFloor := by
  apply max_le
  · exact le_add_of_nonneg_left (cacheR4_nonneg total txe n)
  · exact le_trans (min_le_left _ _) (le_add_of_nonneg_right (by decide))

/-- C9: the cache budget allocator is total and clamped: for every
non-negative total budget and every enabled-index count, every produced
byte-budget field is non-negative and stays within its documented minimum
and maximum, the sum of the byte-budget fields does not exceed the total
budget plus the sum of the fixed floors, and the tuning values pass through
unchanged. -/
theorem cache_budget_allocator_bounds (total : Int) (n : Nat)
    (txe comp : Bool) (mof : Int) (h : 0 ≤ total) :
    0 ≤ (calculateCacheSizes total n txe comp mof).block_tree_db
    ∧ 0 ≤ (calculateCacheSizes total n txe comp mof).coins_db
    ∧ 0 ≤ (calculateCacheSizes total n txe comp mof).coins
    ∧ 0 ≤ (calculateCacheSizes total n txe comp mof).tx_index
    ∧ 0 ≤ (calculateCacheSizes total n txe comp mof).filter_index
    ∧ blockTreeFloor ≤ (calculateCacheSizes total n txe comp mof).block_tree_db
    ∧ (calculateCacheSizes total n txe comp mof).block_tree_db ≤ blockTreeMax
    ∧ (calculateCacheSizes total n txe comp mof).tx_index ≤ txIndexMax
    ∧ (calculateCacheSizes total n txe comp mof).filter_index ≤ filterIndexMax
    ∧ coinsDbFloor ≤ (calculateCacheSizes total n txe comp mof).coins_db
    ∧ (calculateCacheSizes total n txe comp mof).coins_db ≤ coinsDbMax
    ∧ coinsFloor ≤ (calculateCacheSizes total n txe comp mof).coins
    ∧ (calculateCacheSizes total n txe comp mof).coins ≤ coinsMax
    ∧ (calculateCacheSizes total n txe comp mof).block_tree_db
        + (calculateCacheSizes total n txe comp mof).coins_db
        + (calculateCacheSizes total n txe comp mof).coins
        + (calculateCacheSizes total n txe comp mof).tx_index
        + (calculateCacheSizes total n txe comp mof).filter_index
      ≤ total + (blockTreeFloor + coinsDbFloor + coinsFloor)
    ∧ (calculateCacheSizes total n txe comp mof).compression = comp
    ∧ (calculateCacheSizes total n txe comp mof).max_open_files = mof := by
  simp only [calculateCacheSizes]
  have ht0 : cacheT0 total = total := max_eq_left h
  have hA1 := cacheBtree_add_r1 total
  have hr2 : cacheR2 total txe = cacheR1 total - cacheTxi total txe := rfl
  have hA3 := cacheFidx_add_r3_le_r2 total txe n
  have hA4 := cacheCdb_add_r4 total txe n
  have hA5 := cacheCoins_le_r4_add total txe n
  refine ⟨le_trans (by decide) (cacheBtree_lb total),
    le_trans (by decide) (cacheCdb_lb total txe n),
    le_trans (by decide) (cacheCoins_lb total txe n),
    cacheTxi_nonneg total txe,
    cacheFidx_nonneg total txe n,
    cacheBtree_lb total,
    cacheBtree_ub total,
    cacheTxi_ub total txe,
    cacheFidx_ub total txe n,
    cacheCdb_lb total txe n,
    cacheCdb_ub total txe n,
    cacheCoins_lb total txe n,
    cacheCoins_ub total txe n,
    by linarith,
    trivial,
    trivial⟩

theorem cache_budget_allocator_bounds_witness :
    (0 : Int) ≤ 10485760
    ∧ (calculateCacheSizes 10485760 2 true true 64).block_tree_db
        + (calculateCacheSizes 10485760 2 true true 64).coins_db
        + (calculateCacheSizes 10485760 2 true true 64).coins
        + (calculateCacheSizes 10485760 2 true true 64).tx_index
        + (calculateCacheSizes 10485760 2 true true 64).filter_index
      ≤ 10485760 + (blockTreeFloor + coinsDbFloor + coinsFloor) :=
  ⟨by decide,
   (cache_budget_allocator_bounds 10485760 2 true true 64
     (by decide)).2.2.2.2.2.2.2.2.2.2.2.2.2.1⟩

theorem splitAtFirstDot_append (k : List Char) :
    ∀ (sec : List Char), splitAtFirstDot sec = none →
      splitAtFirstDot (sec ++ '.' :: k) = some (sec, k) := by
  intro sec
  induction sec with
  | nil =>
    intro _
    simp [splitAtFirstDot]
  | cons c cs ih =>
    intro h
    unfold splitAtFirstDot at h
    rw [List.cons_append]
    simp only [splitAtFirstDot]
    by_cases hc : c = '.'
    · rw [if_pos hc] at h
      exact Option.noConfusion h
    · rw [if_neg hc] at h
      rw [if_neg hc]
      cases hsp : splitAtFirstDot cs with
      | some p => rw [hsp] at h; exact Option.noConfusion h
      | none =>
        rw [ih hsp]

/-- C10: negated-option interpretation: a settings key whose post-section
name begins with "no" is parsed with the "no" stripped and `negated` set;
when the registered flags allow negation, interpretation yields boolean
false whether the value is absent or interprets as true, yields boolean true
for a double negative (a supplied value interpreting as false), and never
stores the raw string following a negated key. -/
theorem negated_option_interpretation (atoi : List Char → Int) (flags : Nat)
    (hflag : flags &&& DISALLOW_NEGATION = 0) :
    (∀ sec rest, splitAtFirstDot sec = none →
       InterpretKey (sec ++ '.' :: 'n' :: 'o' :: rest) =
         { name := rest, sectionName := sec, negated := true })
    ∧ (∀ rest, splitAtFirstDot ('n' :: 'o' :: rest) = none →
       InterpretKey ('n' :: 'o' :: rest) =
         { name := rest, sectionName := [], negated := true })
    ∧ (∀ ki : KeyInfo, ki.negated = true →
        InterpretValue atoi ki none flags = some (SettingsValue.bval false)
        ∧ (∀ v, InterpretBool atoi v = true →
            InterpretValue atoi ki (some v) flags = some (SettingsValue.bval false))
        ∧ (∀ v, InterpretBool atoi v = false →
            InterpretValue atoi ki (some v) flags = some (SettingsValue.bval true))
        ∧ (∀ v s, InterpretValue atoi ki (some v) flags ≠ some (SettingsValue.sval s))) := by
  refine ⟨?_, ?_, ?_⟩
  · intro sec rest hsec
    unfold InterpretKey
    rw [splitAtFirstDot_append ('n' :: 'o' :: rest) sec hsec]
    rfl
  · intro rest hnd
    unfold InterpretKey
    rw [hnd]
    rfl
  · intro ki hneg
    refine ⟨?_, ?_, ?_, ?_⟩
    · unfold InterpretValue
      rw [if_pos hneg, if_neg (by simp [hflag])]
    · intro v hv
      unfold InterpretValue
      rw [if_pos hneg, if_neg (by simp [hflag])]
      dsimp only
      rw [if_neg (by simp [hv])]
    · intro v hv
      unfold InterpretValue
      rw [if_pos hneg, if_neg (by simp [hflag])]
      dsimp only
      rw [if_pos hv]
    · intro v s heq
      unfold InterpretValue at heq
      rw [if_pos hneg, if_neg (by simp [hflag])] at heq
      dsimp only at heq
      by_cases hib : InterpretBool atoi v = false
      · rw [if_pos hib] at heq
        exact SettingsValue.noConfusion (Option.some.inj heq)
      · rw [if_neg hib] at heq
        exact SettingsValue.noConfusion (Option.some.inj heq)

theorem negated_option_interpretation_witness :
    InterpretKey ('n' :: 'o' :: 'f' :: 'o' :: 'o' :: []) =
      { name := ['f', 'o', 'o'], sectionName := [], negated := true }
    ∧ InterpretValue (fun _ => 0)
        { name := ['f', 'o', 'o'], sectionName := [], negated := true }
        none 0 = some (SettingsValue.bval false) :=
  ⟨(negated_option_interpretation (fun _ => 0) 0 (by decide)).2.1
      ['f', 'o', 'o'] (by decide),
   ((negated_option_interpretation (fun _ => 0) 0 (by decide)).2.2
      { name := ['f', 'o', 'o'], sectionName := [], negated := true } rfl).1⟩
